import Mathlib

/-!
Verification of the Matcha repository (src/model.py): the `Matcha` model
wrapper (layer freezing, forward loss breakdown) and the `AWP` adversarial
weight perturbation controller (save / attack / restore cycle).

Embedding conventions:
* Tensors are modelled as lists of rationals (exact arithmetic idealization
  of float tensors; elementwise ops are `List.zipWith` / `List.map`).
* `torch.norm` is an external library function; it is abstracted as an
  explicit function argument `tnorm : Tensor → ℚ`.  In exact arithmetic no
  NaN value exists, so the source's `not torch.isnan(norm1)` guard is
  identically true and the attack-step guard reduces to `norm1 ≠ 0`.
* Python dicts (`self.backup`, `self.backup_eps`) are association lists
  with front insertion; the source only ever inserts a key that is absent
  (the `if name not in self.backup` guard), so lookup is unambiguous.
* A parameter carries its name, its `requires_grad` flag, an optional
  gradient and its data tensor; a model is the list of its named
  parameters, in `named_parameters()` order.
-/

abbrev Tensor := List ℚ

structure Param where
  name : String
  requires_grad : Bool
  grad : Option Tensor
  data : Tensor
deriving DecidableEq

abbrev Model := List Param

/-- Association-list lookup, modelling Python dict access `d[k]`
(with front insertion, the most recent binding wins). -/
def dictFind {α : Type} (d : List (String × α)) (k : String) : Option α :=
  match d with
  | [] => none
  | (k', v) :: t => if k' = k then some v else dictFind t k

/-- Python `k in d` membership test on a dict. -/
def dictHas {α : Type} (d : List (String × α)) (k : String) : Bool :=
  (dictFind d k).isSome

/-- Test `charsStart n h`: true when the character list `n` starts the list `h`. -/
def charsStart : List Char → List Char → Bool
  | [], _ => true
  | _ :: _, [] => false
  | a :: as, b :: bs => a == b && charsStart as bs

/-- Test `charsIn n h`: true when `n` occurs as a contiguous run inside `h`. -/
def charsIn (needle : List Char) : List Char → Bool
  | [] => charsStart needle []
  | c :: t => charsStart needle (c :: t) || charsIn needle t

/-- Python substring containment `needle in hay` on strings. -/
def strIn (needle hay : String) : Bool := charsIn needle.data hay.data

/-- Elementwise tensor addition (`param.data.add_(r_at)` on same-shape tensors). -/
def tAdd (x y : Tensor) : Tensor := List.zipWith (· + ·) x y

/-- Elementwise tensor subtraction. -/
def tSub (x y : Tensor) : Tensor := List.zipWith (· - ·) x y

/-- Elementwise absolute value, `param.abs()`. -/
def tAbs (x : Tensor) : Tensor := x.map (fun a => |a|)

/-- Scalar-tensor product, `c * t`. -/
def tScale (c : ℚ) (x : Tensor) : Tensor := x.map (fun a => c * a)

/-- Elementwise `torch.min`. -/
def tMin (x y : Tensor) : Tensor := List.zipWith min x y

/-- Elementwise `torch.max`. -/
def tMax (x y : Tensor) : Tensor := List.zipWith max x y

/-- State of the `AWP` controller: the constructor arguments
`adv_param`, `adv_lr`, `adv_eps` and the two dicts `backup` and
`backup_eps`.  The model and optimizer references are passed explicitly
to each operation instead of being stored. -/
structure AWP where
  adv_param : String
  adv_lr : ℚ
  adv_eps : ℚ
  backup : List (String × Tensor)
  backup_eps : List (String × (Tensor × Tensor))
deriving DecidableEq

/-- Constructor `AWP.__init__`: both dicts start empty. -/
def awpNew (ap : String) (lr eps : ℚ) : AWP :=
  { adv_param := ap, adv_lr := lr, adv_eps := eps, backup := [], backup_eps := [] }

/-- The shared guard of `_save` and `_attack_step`:
`param.requires_grad and param.grad is not None and self.adv_param in name`. -/
def matched (A : AWP) (p : Param) : Bool :=
  p.requires_grad && p.grad.isSome && strIn A.adv_param p.name

/-- One loop iteration of `AWP._save` for a single named parameter:
if the guard holds and the name is not yet backed up, snapshot
`param.data` and store the clamp pair
`(backup - adv_eps*|param|, backup + adv_eps*|param|)`. -/
def savePar (A : AWP) (p : Param) : AWP :=
  if matched A p then
    if dictHas A.backup p.name then A
    else
      let snap := p.data
      let grad_eps := tScale A.adv_eps (tAbs p.data)
      { A with
        backup := (p.name, snap) :: A.backup,
        backup_eps := (p.name, (tSub snap grad_eps, tAdd snap grad_eps)) :: A.backup_eps }
  else A

/-- Method `AWP._save`: fold the per-parameter step over `named_parameters()`. -/
def awpSave (A : AWP) (m : Model) : AWP := m.foldl savePar A

/-- The clamp pair `(s - eps*|s|, s + eps*|s|)` stored by `_save` for a
snapshot `s`. -/
def epsPair (eps : ℚ) (s : Tensor) : Tensor × Tensor :=
  (tSub s (tScale eps (tAbs s)), tAdd s (tScale eps (tAbs s)))

/-- The numerical-stability floor `e = 1e-6` of `_attack_step`. -/
def eFloor : ℚ := 1 / 1000000

/-- One loop iteration of `AWP._attack_step` for a single parameter.
When the norm of the gradient is nonzero, the update
`adv_lr * grad / (norm1 + e) * (norm2 + e)` is added to the data which is
then clamped into `backup_eps[name]`; a missing `backup_eps` entry is the
source's `KeyError`, modelled as `none`. -/
def attackPar (tnorm : Tensor → ℚ) (A : AWP) (p : Param) : Option Param :=
  if matched A p then
    match p.grad with
    | none => some p
    | some g =>
      let norm1 := tnorm g
      let norm2 := tnorm p.data
      if norm1 ≠ 0 then
        let r_at := g.map (fun x => A.adv_lr * x / (norm1 + eFloor) * (norm2 + eFloor))
        match dictFind A.backup_eps p.name with
        | none => none
        | some lohi =>
          some { p with data := tMin (tMax (tAdd p.data r_at) lohi.1) lohi.2 }
      else some p
  else some p

/-- Method `AWP._attack_step` over the whole parameter list. -/
def awpAttack (tnorm : Tensor → ℚ) (A : AWP) : Model → Option Model
  | [] => some []
  | p :: t =>
    match attackPar tnorm A p, awpAttack tnorm A t with
    | some q, some t' => some (q :: t')
    | _, _ => none

/-- One loop iteration of `AWP._restore`: a parameter whose name is in
`backup` gets its saved data back. -/
def restorePar (A : AWP) (p : Param) : Param :=
  match dictFind A.backup p.name with
  | some t => { p with data := t }
  | none => p

/-- Method `AWP._restore`: restore every backed-up parameter, then clear both dicts. -/
def awpRestore (A : AWP) (m : Model) : AWP × Model :=
  ({ A with backup := [], backup_eps := [] }, m.map (restorePar A))

/-- Modelled from the spec: the external forward / `optimizer.zero_grad` /
`accelerator.backward` sequence of `attack_backward` is out of scope
(third-party framework); per the spec it has "no side effects beyond ...
populating gradient buffers", so it is modelled as an arbitrary rewrite
`gradUpd` of each parameter's gradient slot, leaving name, flag and data
untouched. -/
def gradPass (gradUpd : Param → Option Tensor) (m : Model) : Model :=
  m.map (fun p => { p with grad := gradUpd p })

/-- Method `AWP.attack_backward`: early return when `adv_lr == 0`, else
save, attack, run the external forward/backward, restore. -/
def attack_backward (tnorm : Tensor → ℚ) (gradUpd : Param → Option Tensor)
    (A : AWP) (m : Model) : Option (AWP × Model) :=
  if A.adv_lr = 0 then some (A, m)
  else
    let A1 := awpSave A m
    match awpAttack tnorm A1 m with
    | none => none
    | some m1 => some (awpRestore A1 (gradPass gradUpd m1))

/-- Location of a backbone parameter: inside encoder layer `i`, inside the
embeddings module, or anywhere else (decoder etc.). -/
inductive Loc where
  | encoderLayer (i : ℕ)
  | embeddings
  | decoder
deriving DecidableEq

/-- A backbone parameter as seen by the freezing loop of `Matcha.__init__`. -/
structure MParam where
  loc : Loc
  requires_grad : Bool
deriving DecidableEq

/-- Cutoff `to_freeze_layer = int(0.4 * backbone_config.num_hidden_layers)`,
in exact arithmetic: the floor of `0.4 * n`. -/
def toFreezeLayer (n : ℕ) : ℤ := ⌊(4 / 10 : ℚ) * n⌋

/-- The freezing effect of `Matcha.__init__` on one parameter: parameters
of `encoder.layer[:to_freeze_layer]` and all `embeddings` parameters get
`requires_grad = False`; everything else is left as it was. -/
def freezeParam (n : ℕ) (p : MParam) : MParam :=
  match p.loc with
  | Loc.encoderLayer i =>
      if (i : ℤ) < toFreezeLayer n then { p with requires_grad := false } else p
  | Loc.embeddings => { p with requires_grad := false }
  | Loc.decoder => p

/-- The whole freezing pass over the backbone parameter list. -/
def freezeEncoder (n : ℕ) (ps : List MParam) : List MParam :=
  ps.map (freezeParam n)

/-- Method `Matcha.forward`: the backbone forward pass is external and returns
`outputs.loss`, abstracted as the input `backboneLoss`; the wrapper
returns `(loss, {loss_main: loss_main, loss_cls: loss})` with
`loss = loss_main = outputs.loss` (the secondary head is commented out). -/
def matchaForward (backboneLoss : ℚ) : ℚ × List (String × ℚ) :=
  let loss_main := backboneLoss
  let loss := loss_main
  (loss, [("loss_main", loss_main), ("loss_cls", loss)])

/-- Tensors `lo`, `hi` and `x` agree in length-range and `x` sits inside the
elementwise interval. -/
def inClamp (lo hi x : Tensor) : Prop :=
  ∀ j, j < x.length → lo.getD j 0 ≤ x.getD j 0 ∧ x.getD j 0 ≤ hi.getD j 0

/-- The two dicts of the controller hold exactly the same key set. -/
def keysAligned (A : AWP) : Prop :=
  ∀ k, dictHas A.backup k = dictHas A.backup_eps k

/-! ### Basic lemmas about the embedded operations -/

theorem dictFind_cons {α : Type} (k' : String) (v : α) (d : List (String × α)) (k : String) :
    dictFind ((k', v) :: d) k = if k' = k then some v else dictFind d k := rfl

theorem savePar_adv_param (A : AWP) (p : Param) : (savePar A p).adv_param = A.adv_param := by
  unfold savePar
  split <;> [skip; rfl]
  split <;> rfl

theorem savePar_adv_lr (A : AWP) (p : Param) : (savePar A p).adv_lr = A.adv_lr := by
  unfold savePar
  split <;> [skip; rfl]
  split <;> rfl

theorem savePar_adv_eps (A : AWP) (p : Param) : (savePar A p).adv_eps = A.adv_eps := by
  unfold savePar
  split <;> [skip; rfl]
  split <;> rfl

theorem matched_savePar (A : AWP) (p q : Param) : matched (savePar A p) q = matched A q := by
  simp [matched, savePar_adv_param]

theorem awpSave_adv_param (A : AWP) (m : Model) : (awpSave A m).adv_param = A.adv_param := by
  induction m generalizing A with
  | nil => rfl
  | cons p t ih =>
      simp only [awpSave, List.foldl_cons] at *
      rw [ih (savePar A p), savePar_adv_param]

theorem awpSave_adv_lr (A : AWP) (m : Model) : (awpSave A m).adv_lr = A.adv_lr := by
  induction m generalizing A with
  | nil => rfl
  | cons p t ih =>
      simp only [awpSave, List.foldl_cons] at *
      rw [ih (savePar A p), savePar_adv_lr]

theorem awpSave_adv_eps (A : AWP) (m : Model) : (awpSave A m).adv_eps = A.adv_eps := by
  induction m generalizing A with
  | nil => rfl
  | cons p t ih =>
      simp only [awpSave, List.foldl_cons] at *
      rw [ih (savePar A p), savePar_adv_eps]

theorem matched_awpSave (A : AWP) (m : Model) (q : Param) :
    matched (awpSave A m) q = matched A q := by
  simp [matched, awpSave_adv_param]

/-- Lookup in the backup dict after `_save`: a key already present keeps its
binding; a fresh key is bound to the data of the first matched parameter of
that name, if any. -/
theorem awpSave_find_backup (m : Model) (A : AWP) (k : String) :
    dictFind (awpSave A m).backup k =
      if dictHas A.backup k then dictFind A.backup k
      else (m.find? (fun p => matched A p && p.name == k)).map Param.data := by
  induction m generalizing A with
  | nil =>
      cases h : dictFind A.backup k <;> simp [awpSave, dictHas, h]
  | cons p t ih =>
      simp only [awpSave, List.foldl_cons]
      have step : List.foldl savePar (savePar A p) t = awpSave (savePar A p) t := rfl
      rw [step, ih (savePar A p)]
      by_cases hm : matched A p
      · by_cases hb : dictHas A.backup p.name
        · have hsp : savePar A p = A := by simp [savePar, hm, hb]
          rw [hsp]
          by_cases hk : dictHas A.backup k
          · simp [hk]
          · simp only [hk, if_false]
            have hpk : (p.name == k) = false := by
              rcases Bool.eq_false_or_eq_true (p.name == k) with h | h
              · exfalso
                have : p.name = k := by simpa using h
                rw [this] at hb
                exact hk hb
              · exact h
            rw [List.find?_cons]
            simp [matched_savePar, hm, hpk]
        · have hsp : (savePar A p).backup = (p.name, p.data) :: A.backup ∧
              (savePar A p).adv_param = A.adv_param := by
            constructor
            · simp [savePar, hm, hb]
            · exact savePar_adv_param A p
          by_cases hpk : p.name = k
          · subst hpk
            have h1 : dictHas (savePar A p).backup p.name = true := by
              simp [dictHas, hsp.1, dictFind_cons]
            have h2 : dictFind (savePar A p).backup p.name = some p.data := by
              simp [hsp.1, dictFind_cons]
            rw [h1, if_pos rfl, h2]
            have hbf : dictHas A.backup p.name = false := by
              simpa using hb
            rw [hbf]
            simp only [Bool.false_eq_true, if_false]
            rw [List.find?_cons]
            simp [matched_savePar, hm]
          · have h1 : dictFind (savePar A p).backup k = dictFind A.backup k := by
              rw [hsp.1, dictFind_cons, if_neg hpk]
            have h2 : dictHas (savePar A p).backup k = dictHas A.backup k := by
              simp [dictHas, h1]
            rw [h1, h2]
            by_cases hk : dictHas A.backup k
            · simp [hk]
            · simp only [hk, if_false]
              have hpk' : (p.name == k) = false := by
                simpa using hpk
              rw [List.find?_cons]
              simp [matched_savePar, hm, hpk']
      · have hsp : savePar A p = A := by simp [savePar, hm]
        rw [hsp]
        by_cases hk : dictHas A.backup k
        · simp [hk]
        · simp only [hk, if_false]
          have hmf : matched A p = false := by simpa using hm
          rw [List.find?_cons]
          simp [matched_savePar, hmf]

/-- Lookup in the clamp dict after `_save`: a key already backed up keeps its
clamp binding; a fresh key gets the clamp pair of the first matched
parameter of that name, if any. -/
theorem awpSave_find_backup_eps (m : Model) (A : AWP) (k : String) :
    dictFind (awpSave A m).backup_eps k =
      if dictHas A.backup k then dictFind A.backup_eps k
      else
        match m.find? (fun p => matched A p && p.name == k) with
        | none => dictFind A.backup_eps k
        | some p => some (epsPair A.adv_eps p.data) := by
  induction m generalizing A with
  | nil =>
      cases hk : dictHas A.backup k <;> simp [awpSave, hk]
  | cons p t ih =>
      simp only [awpSave, List.foldl_cons]
      have step : List.foldl savePar (savePar A p) t = awpSave (savePar A p) t := rfl
      rw [step, ih (savePar A p)]
      by_cases hm : matched A p
      · by_cases hb : dictHas A.backup p.name
        · have hsp : savePar A p = A := by simp [savePar, hm, hb]
          rw [hsp]
          by_cases hk : dictHas A.backup k
          · simp [hk]
          · simp only [hk, if_false]
            have hpk : (p.name == k) = false := by
              rcases Bool.eq_false_or_eq_true (p.name == k) with h | h
              · exfalso
                have : p.name = k := by simpa using h
                rw [this] at hb
                exact hk hb
              · exact h
            rw [List.find?_cons]
            simp [matched_savePar, hm, hpk]
        · have hbck : (savePar A p).backup = (p.name, p.data) :: A.backup := by
            simp [savePar, hm, hb]
          have hepc : (savePar A p).backup_eps =
              (p.name, epsPair A.adv_eps p.data) :: A.backup_eps := by
            simp [savePar, hm, hb, epsPair]
          by_cases hpk : p.name = k
          · subst hpk
            have h1 : dictHas (savePar A p).backup p.name = true := by
              simp [dictHas, hbck, dictFind_cons]
            have h2 : dictFind (savePar A p).backup_eps p.name =
                some (epsPair A.adv_eps p.data) := by
              simp [hepc, dictFind_cons]
            rw [h1, if_pos rfl, h2]
            have hbf : dictHas A.backup p.name = false := by simpa using hb
            rw [hbf]
            simp only [Bool.false_eq_true, if_false]
            rw [List.find?_cons]
            simp [matched_savePar, hm]
          · have h1 : dictFind (savePar A p).backup_eps k = dictFind A.backup_eps k := by
              rw [hepc, dictFind_cons, if_neg hpk]
            have h2 : dictHas (savePar A p).backup k = dictHas A.backup k := by
              simp [dictHas, hbck, dictFind_cons, hpk]
            rw [h1, h2, savePar_adv_eps]
            by_cases hk : dictHas A.backup k
            · simp [hk]
            · simp only [hk, if_false]
              have hpk' : (p.name == k) = false := by simpa using hpk
              rw [List.find?_cons]
              simp [matched_savePar, hm, hpk']
      · have hsp : savePar A p = A := by simp [savePar, hm]
        rw [hsp]
        by_cases hk : dictHas A.backup k
        · simp [hk]
        · simp only [hk, if_false]
          have hmf : matched A p = false := by simpa using hm
          rw [List.find?_cons]
          simp [matched_savePar, hmf]

theorem attackPar_not_matched (tnorm : Tensor → ℚ) (A : AWP) (p : Param)
    (h : matched A p = false) : attackPar tnorm A p = some p := by
  simp [attackPar, h]

theorem attackPar_zero_norm (tnorm : Tensor → ℚ) (A : AWP) (p : Param) (g : Tensor)
    (hm : matched A p = true) (hg : p.grad = some g) (h0 : tnorm g = 0) :
    attackPar tnorm A p = some p := by
  simp [attackPar, hm, hg, h0]

/-- The active branch of `_attack_step`: nonzero gradient norm, clamp pair
present — the data is updated by the normalized ascent step and clamped. -/
theorem attackPar_active (tnorm : Tensor → ℚ) (A : AWP) (p : Param) (g lo hi : Tensor)
    (hm : matched A p = true) (hg : p.grad = some g) (h0 : tnorm g ≠ 0)
    (he : dictFind A.backup_eps p.name = some (lo, hi)) :
    attackPar tnorm A p = some { p with data := tMin (tMax (tAdd p.data (g.map (fun x => A.adv_lr * x / (tnorm g + eFloor) * (tnorm p.data + eFloor)))) lo) hi } := by
  simp [attackPar, hm, hg, h0, he]

theorem attackPar_some (tnorm : Tensor → ℚ) (A : AWP) (p : Param)
    (h : matched A p = true → dictHas A.backup_eps p.name = true) :
    ∃ q, attackPar tnorm A p = some q := by
  by_cases hm : matched A p
  · cases hg : p.grad with
    | none => exact ⟨p, by simp [attackPar, hm, hg]⟩
    | some g =>
        by_cases h0 : tnorm g = 0
        · exact ⟨p, attackPar_zero_norm tnorm A p g hm hg h0⟩
        · have hh := h hm
          rw [dictHas] at hh
          cases he : dictFind A.backup_eps p.name with
          | none => rw [he] at hh; simp at hh
          | some lohi =>
              exact ⟨_, attackPar_active tnorm A p g lohi.1 lohi.2 hm hg h0 (by rw [he])⟩
  · exact ⟨p, attackPar_not_matched tnorm A p (by simpa using hm)⟩

/-- Step `_attack_step` only ever writes the `data` field of a parameter: name,
`requires_grad` and gradient pass through untouched. -/
theorem attackPar_preserves (tnorm : Tensor → ℚ) (A : AWP) (p q : Param)
    (h : attackPar tnorm A p = some q) :
    q.name = p.name ∧ q.requires_grad = p.requires_grad ∧ q.grad = p.grad := by
  by_cases hm : matched A p
  · cases hg : p.grad with
    | none =>
        have h' : attackPar tnorm A p = some p := by simp [attackPar, hm, hg]
        have heq := Option.some.inj (h'.symm.trans h)
        subst heq
        exact ⟨rfl, rfl, hg⟩
    | some g =>
        by_cases h0 : tnorm g = 0
        · have h' := attackPar_zero_norm tnorm A p g hm hg h0
          have heq := Option.some.inj (h'.symm.trans h)
          subst heq
          exact ⟨rfl, rfl, hg⟩
        · cases he : dictFind A.backup_eps p.name with
          | none =>
              exfalso
              have h' : attackPar tnorm A p = none := by simp [attackPar, hm, hg, h0, he]
              rw [h'] at h
              exact Option.noConfusion h
          | some lohi =>
              have h' := attackPar_active tnorm A p g lohi.1 lohi.2 hm hg h0 (by rw [he])
              have heq := Option.some.inj (h'.symm.trans h)
              subst heq
              exact ⟨rfl, rfl, hg⟩
  · have h' := attackPar_not_matched tnorm A p (by simpa using hm)
    have heq := Option.some.inj (h'.symm.trans h)
    subst heq
    exact ⟨rfl, rfl, rfl⟩

theorem awpAttack_some (tnorm : Tensor → ℚ) (A : AWP) (m : Model)
    (h : ∀ p ∈ m, matched A p = true → dictHas A.backup_eps p.name = true) :
    ∃ m', awpAttack tnorm A m = some m' := by
  induction m with
  | nil => exact ⟨[], rfl⟩
  | cons p t ih =>
      obtain ⟨q, hq⟩ := attackPar_some tnorm A p (h p (List.mem_cons_self p t))
      obtain ⟨t', ht⟩ := ih (fun r hr => h r (List.mem_cons_of_mem p hr))
      exact ⟨q :: t', by simp [awpAttack, hq, ht]⟩

theorem awpAttack_length (tnorm : Tensor → ℚ) (A : AWP) :
    ∀ (m m' : Model), awpAttack tnorm A m = some m' → m'.length = m.length := by
  intro m
  induction m with
  | nil =>
      intro m' h
      unfold awpAttack at h
      cases Option.some.inj h
      rfl
  | cons p t ih =>
      intro m' h
      unfold awpAttack at h
      cases hq : attackPar tnorm A p with
      | none => rw [hq] at h; simp at h
      | some q =>
          cases ht : awpAttack tnorm A t with
          | none => rw [hq, ht] at h; simp at h
          | some t' =>
              rw [hq, ht] at h
              cases Option.some.inj h
              simp [ih t' ht]

theorem awpAttack_getElem (tnorm : Tensor → ℚ) (A : AWP) :
    ∀ (m m' : Model), awpAttack tnorm A m = some m' →
      ∀ i (h1 : i < m.length) (h2 : i < m'.length),
        attackPar tnorm A m[i] = some (m'[i]) := by
  intro m
  induction m with
  | nil =>
      intro m' _ i h1
      exact absurd h1 (by simp)
  | cons p t ih =>
      intro m' h i h1 h2
      unfold awpAttack at h
      cases hq : attackPar tnorm A p with
      | none => rw [hq] at h; simp at h
      | some q =>
          cases ht : awpAttack tnorm A t with
          | none => rw [hq, ht] at h; simp at h
          | some t' =>
              rw [hq, ht] at h
              cases Option.some.inj h
              cases i with
              | zero => simpa using hq
              | succ j =>
                  have hj1 : j < t.length := by
                    simpa using Nat.lt_of_succ_lt_succ h1
                  have hj2 : j < t'.length := by
                    simpa using Nat.lt_of_succ_lt_succ h2
                  simpa using ih t' ht j hj1 hj2

theorem awpSave_find_backup_of_empty (A : AWP) (m : Model) (k : String)
    (hb : A.backup = []) :
    dictFind (awpSave A m).backup k =
      (m.find? (fun p => matched A p && p.name == k)).map Param.data := by
  rw [awpSave_find_backup]
  have h0 : dictHas A.backup k = false := by simp [hb, dictHas, dictFind]
  simp [h0]

/-- After `_save` on a clean backup dict, every matched parameter has a
clamp interval. -/
theorem awpSave_has_eps (A : AWP) (m : Model) (p : Param) (hp : p ∈ m)
    (hm : matched A p = true) (hb : A.backup = []) :
    dictHas (awpSave A m).backup_eps p.name = true := by
  have h0 : dictHas A.backup p.name = false := by simp [hb, dictHas, dictFind]
  rw [dictHas, awpSave_find_backup_eps, h0]
  have hex : ∃ x ∈ m, (matched A x && x.name == p.name) = true := ⟨p, hp, by simp [hm]⟩
  rw [← List.find?_isSome] at hex
  cases hf : m.find? (fun q => matched A q && q.name == p.name) with
  | none => rw [hf] at hex; simp at hex
  | some x => simp [hf]

/-- After `_save` on a clean backup dict over a model with distinct
parameter names, a matched parameter is backed up to its own data. -/
theorem awpSave_find_backup_matched (A : AWP) (m : Model) (p : Param)
    (hb : A.backup = []) (hnd : (m.map Param.name).Nodup)
    (hp : p ∈ m) (hm : matched A p = true) :
    dictFind (awpSave A m).backup p.name = some p.data := by
  rw [awpSave_find_backup_of_empty A m p.name hb]
  cases hf : m.find? (fun q => matched A q && q.name == p.name) with
  | none =>
      exfalso
      have hex : ∃ x ∈ m, (matched A x && x.name == p.name) = true := ⟨p, hp, by simp [hm]⟩
      rw [← List.find?_isSome] at hex
      rw [hf] at hex
      simp at hex
  | some x =>
      have hx1 := List.find?_some hf
      have hx2 := List.mem_of_find?_eq_some hf
      simp only [Bool.and_eq_true, beq_iff_eq] at hx1
      have hxp : x = p := List.inj_on_of_nodup_map hnd hx2 hp hx1.2
      subst hxp
      simp

/-- After `_save` on a clean backup dict over a model with distinct
parameter names, an unmatched parameter's name stays out of the backup. -/
theorem awpSave_find_backup_unmatched (A : AWP) (m : Model) (p : Param)
    (hb : A.backup = []) (hnd : (m.map Param.name).Nodup)
    (hp : p ∈ m) (hm : matched A p = false) :
    dictFind (awpSave A m).backup p.name = none := by
  rw [awpSave_find_backup_of_empty A m p.name hb]
  cases hf : m.find? (fun q => matched A q && q.name == p.name) with
  | none => simp
  | some x =>
      exfalso
      have hx1 := List.find?_some hf
      have hx2 := List.mem_of_find?_eq_some hf
      simp only [Bool.and_eq_true, beq_iff_eq] at hx1
      have hxp : x = p := List.inj_on_of_nodup_map hnd hx2 hp hx1.2
      rw [hxp] at hx1
      rw [hx1.1] at hm
      exact Bool.noConfusion hm

/-- C1: for a cycle starting from an empty backup dict over a model with
distinct parameter names and a nonzero step size, `attack_backward`
completes and every parameter's value (matched parameters included) equals
its pre-cycle value: `_restore` overwrites each backed-up parameter with
the snapshot taken by `_save`, and untouched parameters never move. -/
theorem C1_save_restore_round_trip (tnorm : Tensor → ℚ) (gU : Param → Option Tensor)
    (A : AWP) (m : Model) (hlr : A.adv_lr ≠ 0) (hb : A.backup = [])
    (hnd : (m.map Param.name).Nodup) :
    (attack_backward tnorm gU A m).map (fun r => r.2.map Param.data) =
      some (m.map Param.data) := by
  have hcov : ∀ p ∈ m, matched (awpSave A m) p = true →
      dictHas (awpSave A m).backup_eps p.name = true := by
    intro p hp hm
    rw [matched_awpSave] at hm
    exact awpSave_has_eps A m p hp hm hb
  obtain ⟨m1, hm1⟩ := awpAttack_some tnorm (awpSave A m) m hcov
  have hlen : m1.length = m.length := awpAttack_length tnorm (awpSave A m) m m1 hm1
  simp only [attack_backward, if_neg hlr, hm1, Option.map_some']
  congr 1
  apply List.ext_getElem
  · simp [awpRestore, gradPass, hlen]
  · intro i hi1 hi2
    have him : i < m.length := by simpa using hi2
    have him1 : i < m1.length := by rw [hlen]; exact him
    simp only [awpRestore, gradPass, List.map_map, List.getElem_map, Function.comp]
    have hq : attackPar tnorm (awpSave A m) m[i] = some (m1[i]) :=
      awpAttack_getElem tnorm (awpSave A m) m m1 hm1 i him him1
    have hname : (m1[i]).name = (m[i]).name := (attackPar_preserves _ _ _ _ hq).1
    have hmem : m[i] ∈ m := List.getElem_mem him
    by_cases hm : matched A m[i]
    · have hfind : dictFind (awpSave A m).backup (m1[i]).name = some (m[i]).data := by
        rw [hname]
        exact awpSave_find_backup_matched A m m[i] hb hnd hmem hm
      simp [restorePar, hfind]
    · have hq' : attackPar tnorm (awpSave A m) m[i] = some (m[i]) := by
        apply attackPar_not_matched
        rw [matched_awpSave]
        simpa using hm
      have hqq : m[i] = m1[i] := Option.some.inj (hq'.symm.trans hq)
      have hfind : dictFind (awpSave A m).backup (m[i]).name = none :=
        awpSave_find_backup_unmatched A m m[i] hb hnd hmem (by simpa using hm)
      simp [restorePar, hfind, ← hqq]

/-- Every matched parameter of the model is backed up by `_save`
(whatever the prior dict contents). -/
theorem awpSave_has_backup (A : AWP) (m : Model) (p : Param)
    (hp : p ∈ m) (hm : matched A p = true) :
    dictHas (awpSave A m).backup p.name = true := by
  rw [dictHas, awpSave_find_backup]
  by_cases hk : dictHas A.backup p.name
  · rw [if_pos hk]
    exact hk
  · have hkf : dictHas A.backup p.name = false := by simpa using hk
    rw [hkf]
    simp only [Bool.false_eq_true, if_false]
    have hex : ∃ x ∈ m, (matched A x && x.name == p.name) = true := ⟨p, hp, by simp [hm]⟩
    rw [← List.find?_isSome] at hex
    cases hf : m.find? (fun q => matched A q && q.name == p.name) with
    | none => rw [hf] at hex; simp at hex
    | some x => simp [hf]

/-- Saving is a no-op when every matched parameter is already backed up. -/
theorem awpSave_noop (B : AWP) (m : Model)
    (h : ∀ p ∈ m, matched B p = true → dictHas B.backup p.name = true) :
    awpSave B m = B := by
  induction m with
  | nil => rfl
  | cons p t ih =>
      have hsp : savePar B p = B := by
        by_cases hm : matched B p
        · simp [savePar, hm, h p (List.mem_cons_self p t) hm]
        · simp [savePar, hm]
      simp only [awpSave, List.foldl_cons]
      rw [hsp]
      exact ih (fun q hq hmq => h q (List.mem_cons_of_mem p hq) hmq)

/-- C5: running `_save` a second time on the same model without an
intervening `_restore` changes nothing at all: every backup entry and
clamp interval created by the first call survives unchanged, because a
name already present in the backup dict is never overwritten. -/
theorem C5_save_dedup_idempotent (A : AWP) (m : Model) :
    awpSave (awpSave A m) m = awpSave A m := by
  apply awpSave_noop
  intro p hp hm
  rw [matched_awpSave] at hm
  exact awpSave_has_backup A m p hp hm

/-- C4: with a zero step size, `attack_backward` returns at once: the
controller state (both dicts included) and every model parameter are
unchanged, and the result does not depend on the forward/backward pass
(`gU`) nor on the norm function — no forward or backward call is made. -/
theorem C4_zero_step_noop (tnorm : Tensor → ℚ) (gU : Param → Option Tensor)
    (A : AWP) (m : Model) (h : A.adv_lr = 0) :
    attack_backward tnorm gU A m = some (A, m) := by
  simp [attack_backward, h]

/-- C7: a matched parameter whose gradient norm is zero is left untouched
by `_attack_step`, yet `_save` still enters it into the backup dict (the
save guard only asks that a gradient exists). -/
theorem C7_zero_norm_saved_not_moved (tnorm : Tensor → ℚ) (A : AWP) (m : Model)
    (i : ℕ) (him : i < m.length) (g : Tensor)
    (hm : matched A m[i] = true) (hg : (m[i]).grad = some g) (h0 : tnorm g = 0) :
    dictHas (awpSave A m).backup (m[i]).name = true ∧
    ∀ (m' : Model) (h2 : i < m'.length),
      awpAttack tnorm (awpSave A m) m = some m' → m'[i] = m[i] := by
  constructor
  · exact awpSave_has_backup A m m[i] (List.getElem_mem him) hm
  · intro m' h2 hatk
    have hq := awpAttack_getElem tnorm (awpSave A m) m m' hatk i him h2
    have hz : attackPar tnorm (awpSave A m) m[i] = some (m[i]) := by
      apply attackPar_zero_norm tnorm (awpSave A m) m[i] g _ hg h0
      rw [matched_awpSave]
      exact hm
    exact Option.some.inj (hq.symm.trans hz)

theorem savePar_keysAligned (A : AWP) (p : Param) (h : keysAligned A) :
    keysAligned (savePar A p) := by
  intro k
  by_cases hm : matched A p
  · by_cases hb : dictHas A.backup p.name
    · simp [savePar, hm, hb, h k]
    · have hbck : (savePar A p).backup = (p.name, p.data) :: A.backup := by
        simp [savePar, hm, hb]
      have hepc : (savePar A p).backup_eps =
          (p.name, epsPair A.adv_eps p.data) :: A.backup_eps := by
        simp [savePar, hm, hb, epsPair]
      by_cases hpk : p.name = k
      · simp [dictHas, hbck, hepc, dictFind_cons, hpk]
      · simp [dictHas, hbck, hepc, dictFind_cons, hpk]
        exact h k
  · simp [savePar, hm, h k]

theorem awpSave_keysAligned (A : AWP) (m : Model) (h : keysAligned A) :
    keysAligned (awpSave A m) := by
  induction m generalizing A with
  | nil => exact h
  | cons p t ih =>
      simp only [awpSave, List.foldl_cons]
      exact ih (savePar A p) (savePar_keysAligned A p h)

theorem dictHas_ne_nil {α : Type} (d : List (String × α)) (k : String)
    (h : dictHas d k = true) : d ≠ [] := by
  intro hd
  rw [hd] at h
  simp [dictHas, dictFind] at h

/-- C6: the lifecycle of the two dicts.  At construction both are empty;
`_restore` empties both again; `_save` keeps their key sets equal (so at
every point they hold exactly the same parameter names); and as soon as
the model contains one matched parameter, `_save` makes both non-empty. -/
theorem C6_dict_lifecycle (ap : String) (lr eps : ℚ) (A : AWP) (m : Model) :
    ((awpNew ap lr eps).backup = [] ∧ (awpNew ap lr eps).backup_eps = []) ∧
    ((awpRestore A m).1.backup = [] ∧ (awpRestore A m).1.backup_eps = []) ∧
    (keysAligned (awpNew ap lr eps) ∧ keysAligned (awpRestore A m).1) ∧
    (keysAligned A → keysAligned (awpSave A m)) ∧
    (A.backup = [] → ∀ p ∈ m, matched A p = true →
      (awpSave A m).backup ≠ [] ∧ (awpSave A m).backup_eps ≠ []) := by
  refine ⟨⟨rfl, rfl⟩, ⟨rfl, rfl⟩, ⟨fun k => rfl, fun k => rfl⟩,
    awpSave_keysAligned A m, ?_⟩
  intro hb p hp hm
  constructor
  · exact dictHas_ne_nil _ _ (awpSave_has_backup A m p hp hm)
  · exact dictHas_ne_nil _ _ (awpSave_has_eps A m p hp hm hb)

/-- When `_save` starts from an empty clamp dict, every clamp entry it
produces has the symmetric shape `(s - eps*|s|, s + eps*|s|)`. -/
theorem awpSave_eps_shape (A : AWP) (m : Model) (k : String) (lohi : Tensor × Tensor)
    (hbe : A.backup_eps = [])
    (h : dictFind (awpSave A m).backup_eps k = some lohi) :
    ∃ s, lohi = epsPair A.adv_eps s := by
  rw [awpSave_find_backup_eps] at h
  by_cases hk : dictHas A.backup k
  · rw [if_pos hk, hbe] at h
    simp [dictFind] at h
  · have hkf : dictHas A.backup k = false := by simpa using hk
    rw [hkf] at h
    simp only [Bool.false_eq_true, if_false] at h
    cases hf : m.find? (fun p => matched A p && p.name == k) with
    | none =>
        rw [hf] at h
        rw [hbe] at h
        simp [dictFind] at h
    | some x =>
        rw [hf] at h
        exact ⟨x.data, (Option.some.inj h).symm⟩

/-- Elementwise clamping into a symmetric interval with nonnegative
relative tolerance lands inside the interval. -/
theorem inClamp_clamp_epsPair (eps : ℚ) (s x : Tensor) (heps : 0 ≤ eps) :
    inClamp (epsPair eps s).1 (epsPair eps s).2
      (tMin (tMax x (epsPair eps s).1) (epsPair eps s).2) := by
  intro j hj
  have hj' : j < (tMin (tMax x (epsPair eps s).1) (epsPair eps s).2).length := hj
  rw [tMin, List.length_zipWith, tMax, List.length_zipWith] at hj'
  have hjx : j < x.length := by omega
  have hjlo : j < (epsPair eps s).1.length := by omega
  have hjhi : j < (epsPair eps s).2.length := by omega
  have hge : (tScale eps (tAbs s)).length = s.length := by simp [tScale, tAbs]
  have hlo : (epsPair eps s).1.length = s.length := by
    simp [epsPair, tSub, List.length_zipWith, hge]
  have hjs : j < s.length := by rw [← hlo]; exact hjlo
  rw [List.getD_eq_getElem _ _ hj, List.getD_eq_getElem _ _ hjlo,
    List.getD_eq_getElem _ _ hjhi]
  have hval : (tMin (tMax x (epsPair eps s).1) (epsPair eps s).2)[j] =
      min (max (x[j]) ((epsPair eps s).1[j])) ((epsPair eps s).2[j]) := by
    simp [tMin, tMax, List.getElem_zipWith]
  have h1 : (epsPair eps s).1[j] = s[j] - eps * |s[j]| := by
    simp [epsPair, tSub, tScale, tAbs, List.getElem_zipWith, List.getElem_map]
  have h2 : (epsPair eps s).2[j] = s[j] + eps * |s[j]| := by
    simp [epsPair, tAdd, tScale, tAbs, List.getElem_zipWith, List.getElem_map]
  have hlohi : (epsPair eps s).1[j] ≤ (epsPair eps s).2[j] := by
    rw [h1, h2]
    have hnn := mul_nonneg heps (abs_nonneg (s[j]))
    linarith
  rw [hval]
  constructor
  · exact le_min (le_max_right _ _) hlohi
  · exact min_le_right _ _

/-- C2: after `_attack_step` (following `_save` from clean dicts, with a
nonnegative tolerance), every matched parameter that was actually
perturbed (nonzero gradient norm) lies elementwise inside the clamp
interval `[backup - eps*|backup|, backup + eps*|backup|]` computed by
`_save`. -/
theorem C2_clamped_into_interval (tnorm : Tensor → ℚ) (A : AWP) (m m' : Model)
    (i : ℕ) (g : Tensor) (heps : 0 ≤ A.adv_eps) (hbe : A.backup_eps = [])
    (hatk : awpAttack tnorm (awpSave A m) m = some m')
    (him : i < m.length) (h2 : i < m'.length)
    (hm : matched A m[i] = true) (hg : (m[i]).grad = some g) (h0 : tnorm g ≠ 0) :
    ∃ lo hi, dictFind (awpSave A m).backup_eps (m[i]).name = some (lo, hi) ∧
      inClamp lo hi ((m'[i]).data) := by
  have hq := awpAttack_getElem tnorm (awpSave A m) m m' hatk i him h2
  have hm1 : matched (awpSave A m) m[i] = true := by
    rw [matched_awpSave]; exact hm
  cases he : dictFind (awpSave A m).backup_eps (m[i]).name with
  | none =>
      exfalso
      have hnone : attackPar tnorm (awpSave A m) m[i] = none := by
        simp [attackPar, hm1, hg, h0, he]
      rw [hnone] at hq
      exact Option.noConfusion hq
  | some lohi =>
      obtain ⟨s, hs⟩ := awpSave_eps_shape A m (m[i]).name lohi hbe he
      have hact := attackPar_active tnorm (awpSave A m) m[i] g lohi.1 lohi.2 hm1 hg h0
        (by rw [he])
      have heq := Option.some.inj (hact.symm.trans hq)
      refine ⟨lohi.1, lohi.2, by simp [he], ?_⟩
      rw [← heq]
      have hd : ({ m[i] with data := tMin (tMax (tAdd (m[i]).data (g.map (fun x => (awpSave A m).adv_lr * x / (tnorm g + eFloor) * (tnorm ((m[i]).data) + eFloor)))) lohi.1) lohi.2 } : Param).data = tMin (tMax (tAdd (m[i]).data (g.map (fun x => (awpSave A m).adv_lr * x / (tnorm g + eFloor) * (tnorm ((m[i]).data) + eFloor)))) lohi.1) lohi.2 := rfl
      rw [hd, hs]
      exact inClamp_clamp_epsPair A.adv_eps s _ heps

/-- C3: for a matched parameter with nonzero gradient norm whose name has
a stored clamp pair, `_attack_step` replaces its data by exactly
`clamp(data + adv_lr * grad / (norm(grad) + 1e-6) * (norm(data) + 1e-6))`,
both norms taken before the update, clamped into the stored pair — and
touches nothing else of the parameter. -/
theorem C3_attack_update_formula (tnorm : Tensor → ℚ) (A : AWP) (m m' : Model)
    (i : ℕ) (g lo hi : Tensor)
    (hatk : awpAttack tnorm A m = some m')
    (him : i < m.length) (h2 : i < m'.length)
    (hm : matched A m[i] = true) (hg : (m[i]).grad = some g) (h0 : tnorm g ≠ 0)
    (he : dictFind A.backup_eps (m[i]).name = some (lo, hi)) :
    m'[i] = { m[i] with data := tMin (tMax (tAdd ((m[i]).data) (g.map (fun x => A.adv_lr * x / (tnorm g + eFloor) * (tnorm ((m[i]).data) + eFloor)))) lo) hi } := by
  have hq := awpAttack_getElem tnorm A m m' hatk i him h2
  have hact := attackPar_active tnorm A m[i] g lo hi hm hg h0 he
  exact Option.some.inj (hq.symm.trans hact)

/-- C9: `Matcha.forward` returns the backbone loss as total loss, and a
breakdown dict whose `loss_main` and `loss_cls` entries both equal that
same loss (the secondary head is inactive). -/
theorem C9_forward_loss_breakdown (backboneLoss : ℚ) :
    (matchaForward backboneLoss).1 = backboneLoss ∧
    dictFind (matchaForward backboneLoss).2 "loss_main" = some backboneLoss ∧
    dictFind (matchaForward backboneLoss).2 "loss_cls" = some backboneLoss := by
  refine ⟨rfl, ?_, ?_⟩ <;> simp [matchaForward, dictFind]

/-- C10: an unmatched parameter (name without the filter substring, or no
gradient tracking, or no gradient) is never entered into the backup dict
by `_save`, is returned untouched by `_attack_step`, and is left untouched
by `_restore` (on any later model whose parameter at that slot still
carries the same name). -/
theorem C10_unmatched_frame (tnorm : Tensor → ℚ) (A : AWP) (m : Model) (i : ℕ)
    (him : i < m.length) (hm : matched A m[i] = false)
    (hb : A.backup = []) (hnd : (m.map Param.name).Nodup) :
    dictHas (awpSave A m).backup (m[i]).name = false ∧
    (∀ (m' : Model) (h2 : i < m'.length),
      awpAttack tnorm (awpSave A m) m = some m' → m'[i] = m[i]) ∧
    (∀ (m₂ : Model) (h2 : i < m₂.length)
      (h3 : i < ((awpRestore (awpSave A m) m₂).2).length),
      (m₂[i]).name = (m[i]).name → ((awpRestore (awpSave A m) m₂).2)[i] = m₂[i]) := by
  have hmem : m[i] ∈ m := List.getElem_mem him
  have hfind : dictFind (awpSave A m).backup (m[i]).name = none :=
    awpSave_find_backup_unmatched A m m[i] hb hnd hmem hm
  refine ⟨by simp [dictHas, hfind], ?_, ?_⟩
  · intro m' h2 hatk
    have hq := awpAttack_getElem tnorm (awpSave A m) m m' hatk i him h2
    have hnm : attackPar tnorm (awpSave A m) m[i] = some (m[i]) := by
      apply attackPar_not_matched
      rw [matched_awpSave]
      exact hm
    exact Option.some.inj (hq.symm.trans hnm)
  · intro m₂ h2 h3 hname
    have hmap : ((awpRestore (awpSave A m) m₂).2)[i] = restorePar (awpSave A m) (m₂[i]) := by
      simp [awpRestore, List.getElem_map]
    rw [hmap, restorePar, hname, hfind]

/-- C8: construction-time freezing.  Starting from all-trainable
parameters, the freezing pass disables gradient tracking for exactly the
parameters of the first `int(0.4 * num_hidden_layers)` encoder layers and
all embedding parameters, leaves every location unchanged, and for
`num_hidden_layers = 10` the cutoff is layer index 4 (layers 0–3 frozen,
4–9 and the decoder still trainable). -/
theorem C8_freeze_first_layers (n : ℕ) (ps : List MParam)
    (h : ∀ p ∈ ps, p.requires_grad = true) :
    (freezeEncoder n ps).length = ps.length ∧
    (∀ (i : ℕ) (h1 : i < ps.length) (h2 : i < (freezeEncoder n ps).length),
      ((freezeEncoder n ps)[i].loc = (ps[i]).loc) ∧
      ((freezeEncoder n ps)[i].requires_grad = false ↔
        (∃ j, (ps[i]).loc = Loc.encoderLayer j ∧ (j : ℤ) < toFreezeLayer n) ∨
          (ps[i]).loc = Loc.embeddings)) ∧
    toFreezeLayer 10 = 4 := by
  refine ⟨by simp [freezeEncoder], ?_, by norm_num [toFreezeLayer]⟩
  intro i h1 h2
  have hp := h (ps[i]) (List.getElem_mem h1)
  have hfe : (freezeEncoder n ps)[i] = freezeParam n (ps[i]) := by
    simp [freezeEncoder, List.getElem_map]
  rw [hfe]
  cases hloc : (ps[i]).loc with
  | encoderLayer j =>
      by_cases hj : (j : ℤ) < toFreezeLayer n
      · constructor
        · simp [freezeParam, hloc, hj]
        · simp only [freezeParam, hloc, if_pos hj]
          constructor
          · intro _
            exact Or.inl ⟨j, rfl, hj⟩
          · intro _
            trivial
      · constructor
        · simp [freezeParam, hloc, hj]
        · simp only [freezeParam, hloc, if_neg hj]
          constructor
          · intro hf
            rw [hp] at hf
            exact absurd hf (by simp)
          · rintro (⟨j', hj', hlt⟩ | hemb)
            · injection hj' with hjj
              subst hjj
              exact absurd hlt hj
            · exact Loc.noConfusion hemb
  | embeddings =>
      constructor
      · simp [freezeParam, hloc]
      · simp [freezeParam, hloc]
  | decoder =>
      constructor
      · simp [freezeParam, hloc]
      · simp only [freezeParam, hloc]
        constructor
        · intro hf
          rw [hp] at hf
          exact absurd hf (by simp)
        · rintro (⟨j', hj', _⟩ | hemb)
          · exact Loc.noConfusion hj'
          · exact Loc.noConfusion hemb

/-- Witness for C1 on a concrete two-parameter model (one matched weight,
one gradient-less bias). -/
theorem C1_witness :
    (awpNew "weight" 1 (1/2)).adv_lr ≠ 0 ∧
    (awpNew "weight" 1 (1/2)).backup = [] ∧
    (([⟨"enc.weight", true, some [3], [4]⟩, ⟨"enc.bias", true, none, [5]⟩] : Model).map Param.name).Nodup ∧
    (attack_backward (fun t => t.sum) (fun _ => none) (awpNew "weight" 1 (1/2)) [⟨"enc.weight", true, some [3], [4]⟩, ⟨"enc.bias", true, none, [5]⟩]).map (fun r => r.2.map Param.data) = some (([⟨"enc.weight", true, some [3], [4]⟩, ⟨"enc.bias", true, none, [5]⟩] : Model).map Param.data) :=
  ⟨by decide, rfl, by decide,
    C1_save_restore_round_trip (fun t => t.sum) (fun _ => none) (awpNew "weight" 1 (1/2))
      [⟨"enc.weight", true, some [3], [4]⟩, ⟨"enc.bias", true, none, [5]⟩]
      (by decide) rfl (by decide)⟩

/-- Witness for C4 with a zero step size. -/
theorem C4_witness :
    (awpNew "weight" 0 1).adv_lr = 0 ∧
    attack_backward (fun t => t.sum) (fun _ => none) (awpNew "weight" 0 1) [⟨"enc.weight", true, some [3], [4]⟩] = some (awpNew "weight" 0 1, [⟨"enc.weight", true, some [3], [4]⟩]) :=
  ⟨rfl, C4_zero_step_noop (fun t => t.sum) (fun _ => none) (awpNew "weight" 0 1)
    [⟨"enc.weight", true, some [3], [4]⟩] rfl⟩

/-- Witness for C7 on a matched parameter whose gradient is all-zero. -/
theorem C7_witness :
    matched (awpNew "weight" 1 (1/2)) (([⟨"enc.weight", true, some [0], [4]⟩] : Model)[0]) = true ∧
    (fun t : Tensor => t.headD 0) [0] = 0 ∧
    (dictHas (awpSave (awpNew "weight" 1 (1/2)) [⟨"enc.weight", true, some [0], [4]⟩]).backup (([⟨"enc.weight", true, some [0], [4]⟩] : Model)[0]).name = true ∧
      ∀ (m' : Model) (h2 : 0 < m'.length),
        awpAttack (fun t : Tensor => t.headD 0) (awpSave (awpNew "weight" 1 (1/2)) [⟨"enc.weight", true, some [0], [4]⟩]) [⟨"enc.weight", true, some [0], [4]⟩] = some m' →
          m'[0] = ([⟨"enc.weight", true, some [0], [4]⟩] : Model)[0]) :=
  ⟨by decide, rfl,
    C7_zero_norm_saved_not_moved (fun t : Tensor => t.headD 0) (awpNew "weight" 1 (1/2))
      [⟨"enc.weight", true, some [0], [4]⟩] 0 (by decide) [0] (by decide) (by decide) rfl⟩

/-- Witness for C6 on a concrete matched model. -/
theorem C6_witness :
    (awpNew "weight" 1 (1/2)).backup = [] ∧ (awpNew "weight" 1 (1/2)).backup_eps = [] ∧
    keysAligned (awpSave (awpNew "weight" 1 (1/2)) [⟨"w.weight", true, some [1], [2]⟩]) ∧
    (awpSave (awpNew "weight" 1 (1/2)) [⟨"w.weight", true, some [1], [2]⟩]).backup ≠ [] ∧
    (awpSave (awpNew "weight" 1 (1/2)) [⟨"w.weight", true, some [1], [2]⟩]).backup_eps ≠ [] := by
  have h := C6_dict_lifecycle "weight" 1 (1/2) (awpNew "weight" 1 (1/2))
    [⟨"w.weight", true, some [1], [2]⟩]
  refine ⟨h.1.1, h.1.2, h.2.2.2.1 (fun k => rfl), ?_, ?_⟩
  · exact (h.2.2.2.2 rfl (⟨"w.weight", true, some [1], [2]⟩ : Param) (by simp) (by decide)).1
  · exact (h.2.2.2.2 rfl (⟨"w.weight", true, some [1], [2]⟩ : Param) (by simp) (by decide)).2

/-- Witness for C2: the concrete attack step output stays inside the
stored clamp interval. -/
theorem C2_witness :
    (0 : ℚ) ≤ (awpNew "weight" 1 1).adv_eps ∧
    awpAttack (fun t : Tensor => t.headD 0) (awpSave (awpNew "weight" 1 1) [⟨"w.weight", true, some [1], [2]⟩]) [⟨"w.weight", true, some [1], [2]⟩] = some [⟨"w.weight", true, some [1], tMin (tMax (tAdd [2] (List.map (fun x => (1 : ℚ) * x / ((1 : ℚ) + eFloor) * ((2 : ℚ) + eFloor)) [1])) (tSub [2] (tScale 1 (tAbs [2])))) (tAdd [2] (tScale 1 (tAbs [2])))⟩] ∧
    (∃ lo hi, dictFind (awpSave (awpNew "weight" 1 1) [⟨"w.weight", true, some [1], [2]⟩]).backup_eps (([⟨"w.weight", true, some [1], [2]⟩] : Model)[0]).name = some (lo, hi) ∧ inClamp lo hi ((([⟨"w.weight", true, some [1], tMin (tMax (tAdd [2] (List.map (fun x => (1 : ℚ) * x / ((1 : ℚ) + eFloor) * ((2 : ℚ) + eFloor)) [1])) (tSub [2] (tScale 1 (tAbs [2])))) (tAdd [2] (tScale 1 (tAbs [2])))⟩] : Model)[0]).data)) :=
  ⟨by decide, rfl,
    C2_clamped_into_interval (fun t : Tensor => t.headD 0) (awpNew "weight" 1 1)
      [⟨"w.weight", true, some [1], [2]⟩]
      [⟨"w.weight", true, some [1], tMin (tMax (tAdd [2] (List.map (fun x => (1 : ℚ) * x / ((1 : ℚ) + eFloor) * ((2 : ℚ) + eFloor)) [1])) (tSub [2] (tScale 1 (tAbs [2])))) (tAdd [2] (tScale 1 (tAbs [2])))⟩]
      0 [1] (by decide) rfl rfl (by decide) (by decide) (by decide) (by decide) (by decide)⟩

/-- Witness for C3: the concrete attack step output equals the claimed
update-then-clamp formula. -/
theorem C3_witness :
    awpAttack (fun t : Tensor => t.headD 0) ({ awpNew "weight" 1 1 with backup_eps := [("w.weight", ([1], [3]))] } : AWP) [⟨"w.weight", true, some [1], [2]⟩] = some [⟨"w.weight", true, some [1], tMin (tMax (tAdd [2] (List.map (fun x => (1 : ℚ) * x / ((1 : ℚ) + eFloor) * ((2 : ℚ) + eFloor)) [1])) [1]) [3]⟩] ∧
    ([⟨"w.weight", true, some [1], tMin (tMax (tAdd [2] (List.map (fun x => (1 : ℚ) * x / ((1 : ℚ) + eFloor) * ((2 : ℚ) + eFloor)) [1])) [1]) [3]⟩] : Model)[0] = { ([⟨"w.weight", true, some [1], [2]⟩] : Model)[0] with data := tMin (tMax (tAdd ((([⟨"w.weight", true, some [1], [2]⟩] : Model)[0]).data) (([1] : Tensor).map (fun x => ({ awpNew "weight" 1 1 with backup_eps := [("w.weight", ([1], [3]))] } : AWP).adv_lr * x / ((fun t : Tensor => t.headD 0) [1] + eFloor) * ((fun t : Tensor => t.headD 0) ((([⟨"w.weight", true, some [1], [2]⟩] : Model)[0]).data) + eFloor)))) [1]) [3] } :=
  ⟨rfl,
    C3_attack_update_formula (fun t : Tensor => t.headD 0)
      ({ awpNew "weight" 1 1 with backup_eps := [("w.weight", ([1], [3]))] } : AWP)
      [⟨"w.weight", true, some [1], [2]⟩]
      [⟨"w.weight", true, some [1], tMin (tMax (tAdd [2] (List.map (fun x => (1 : ℚ) * x / ((1 : ℚ) + eFloor) * ((2 : ℚ) + eFloor)) [1])) [1]) [3]⟩]
      0 [1] [1] [3] rfl (by decide) (by decide) (by decide) (by decide) (by decide) rfl⟩

/-- Witness for C8 at `num_hidden_layers = 10` on one parameter per kind. -/
theorem C8_witness :
    (freezeEncoder 10 [⟨Loc.encoderLayer 3, true⟩, ⟨Loc.encoderLayer 4, true⟩, ⟨Loc.embeddings, true⟩, ⟨Loc.decoder, true⟩]).length = ([⟨Loc.encoderLayer 3, true⟩, ⟨Loc.encoderLayer 4, true⟩, ⟨Loc.embeddings, true⟩, ⟨Loc.decoder, true⟩] : List MParam).length ∧
    ((freezeEncoder 10 [⟨Loc.encoderLayer 3, true⟩, ⟨Loc.encoderLayer 4, true⟩, ⟨Loc.embeddings, true⟩, ⟨Loc.decoder, true⟩])[0].requires_grad = false ↔ ((∃ j, (([⟨Loc.encoderLayer 3, true⟩, ⟨Loc.encoderLayer 4, true⟩, ⟨Loc.embeddings, true⟩, ⟨Loc.decoder, true⟩] : List MParam)[0]).loc = Loc.encoderLayer j ∧ (j : ℤ) < toFreezeLayer 10) ∨ (([⟨Loc.encoderLayer 3, true⟩, ⟨Loc.encoderLayer 4, true⟩, ⟨Loc.embeddings, true⟩, ⟨Loc.decoder, true⟩] : List MParam)[0]).loc = Loc.embeddings)) ∧
    toFreezeLayer 10 = 4 := by
  have h := C8_freeze_first_layers 10
    [⟨Loc.encoderLayer 3, true⟩, ⟨Loc.encoderLayer 4, true⟩, ⟨Loc.embeddings, true⟩, ⟨Loc.decoder, true⟩]
    (by decide)
  exact ⟨h.1, (h.2.1 0 (by decide) (by decide)).2, h.2.2⟩

/-- Witness for C10 on a gradient-less bias parameter. -/
theorem C10_witness :
    matched (awpNew "weight" 1 (1/2)) (([⟨"enc.weight", true, some [3], [4]⟩, ⟨"enc.bias", true, none, [5]⟩] : Model)[1]) = false ∧
    (dictHas (awpSave (awpNew "weight" 1 (1/2)) [⟨"enc.weight", true, some [3], [4]⟩, ⟨"enc.bias", true, none, [5]⟩]).backup (([⟨"enc.weight", true, some [3], [4]⟩, ⟨"enc.bias", true, none, [5]⟩] : Model)[1]).name = false ∧
      (∀ (m' : Model) (h2 : 1 < m'.length),
        awpAttack (fun t : Tensor => t.sum) (awpSave (awpNew "weight" 1 (1/2)) [⟨"enc.weight", true, some [3], [4]⟩, ⟨"enc.bias", true, none, [5]⟩]) [⟨"enc.weight", true, some [3], [4]⟩, ⟨"enc.bias", true, none, [5]⟩] = some m' →
          m'[1] = ([⟨"enc.weight", true, some [3], [4]⟩, ⟨"enc.bias", true, none, [5]⟩] : Model)[1]) ∧
      (∀ (m₂ : Model) (h2 : 1 < m₂.length)
        (h3 : 1 < ((awpRestore (awpSave (awpNew "weight" 1 (1/2)) [⟨"enc.weight", true, some [3], [4]⟩, ⟨"enc.bias", true, none, [5]⟩]) m₂).2).length),
        (m₂[1]).name = (([⟨"enc.weight", true, some [3], [4]⟩, ⟨"enc.bias", true, none, [5]⟩] : Model)[1]).name →
          ((awpRestore (awpSave (awpNew "weight" 1 (1/2)) [⟨"enc.weight", true, some [3], [4]⟩, ⟨"enc.bias", true, none, [5]⟩]) m₂).2)[1] = m₂[1])) :=
  ⟨by decide,
    C10_unmatched_frame (fun t : Tensor => t.sum) (awpNew "weight" 1 (1/2))
      [⟨"enc.weight", true, some [3], [4]⟩, ⟨"enc.bias", true, none, [5]⟩] 1
      (by decide) (by decide) rfl (by decide)⟩
